import Mathlib

/-!
Verification development for the sora2 orchestration core.

This file gives a shallow embedding, in Lean 4, of the task-to-worker
orchestration core of the repository:

* the worker supervisor `WorkerRunner.runWorker` (child-process outcome
  handling, output scanning, wall-clock timeout) from
  `orchestrator/src/workerRunner.ts`;
* the profile store `AccountSelector.selectAvailableProfile` (eligibility
  query, lastRunAt stamping) from `orchestrator/src/accountSelector.ts`;
* the task record store `TaskStore.saveTask` / `TaskStore.updateTaskStatus`
  from `orchestrator/src/taskStore.ts`;
* the scheduler loop of the `Orchestrator` class
  (`canStartNewWorker`, `tryClaimAndStartTask`, `handleWorkerComplete`)
  from `orchestrator/src/index.ts`.

External effects (MongoDB operations, the task source HTTP API, child
process behaviour, promise resolution) are modelled explicitly: store
collections become lists of records, awaited external results become
oracle parameters, sequences of performed external calls become explicit
traces, and the single-resolution semantics of a JS promise becomes a
first-event-wins choice.  Machine strings stay strings; timestamps are the
ISO-8601 strings the code uses (compared lexicographically, as MongoDB
does); durations in milliseconds are naturals.
-/

/-! Section: A model of JavaScript JSON values and of JSON.parse

The worker protocol reads child-process output lines with `JSON.parse`.
We model JSON values as an inductive type and `JSON.parse` as a
recursive-descent parser over the character list of the line.  The parser
covers the JSON fragment the worker protocol uses: null, booleans,
integers, strings (with the common escapes), arrays and objects.
-/

inductive Json where
  | str (text : String) : Json
  | num (value : Int) : Json
  | bool (flag : Bool) : Json
  | null : Json
  | arr (items : List Json) : Json
  | obj (entries : List (String × Json)) : Json
deriving Repr

/-- Whitespace accepted between JSON tokens. -/
def jsonSkipWs (cs : List Char) : List Char :=
  cs.dropWhile (fun c => c == ' ' || c == '\n' || c == '\t' || c == '\r')

/-- Decode one escape character of a JSON string literal. -/
def jsonEscChar (e : Char) : Option Char :=
  if e == '"' then some '"'
  else if e == 'n' then some '\n'
  else if e == 't' then some '\t'
  else if e == 'r' then some '\r'
  else if e == '\\' then some '\\'
  else if e == '/' then some '/'
  else none

/-- Parse the body of a JSON string literal, after the opening quote;
returns the decoded characters and the remaining input. -/
def jsonStringBody : List Char → Option (List Char × List Char)
  | [] => none
  | '"' :: rest => some ([], rest)
  | '\\' :: e :: rest =>
    match jsonEscChar e with
    | some c => (jsonStringBody rest).map (fun p => (c :: p.1, p.2))
    | none => none
  | c :: rest => (jsonStringBody rest).map (fun p => (c :: p.1, p.2))

/-- Value of a digit string. -/
def digitsToNat (ds : List Char) : Nat :=
  ds.foldl (fun n c => n * 10 + (c.toNat - 48)) 0

mutual

/-- Parse one JSON value (fuel-indexed recursive descent). -/
def jsonValue (fuel : Nat) (cs : List Char) : Option (Json × List Char) :=
  match fuel with
  | 0 => none
  | f + 1 =>
    match jsonSkipWs cs with
    | 'n' :: 'u' :: 'l' :: 'l' :: rest => some (Json.null, rest)
    | 't' :: 'r' :: 'u' :: 'e' :: rest => some (Json.bool true, rest)
    | 'f' :: 'a' :: 'l' :: 's' :: 'e' :: rest => some (Json.bool false, rest)
    | '"' :: rest =>
      match jsonStringBody rest with
      | some (s, r) => some (Json.str (String.mk s), r)
      | none => none
    | '[' :: rest =>
      (match jsonSkipWs rest with
       | ']' :: r2 => some (Json.arr [], r2)
       | other =>
         match jsonElements f other with
         | some (es, r2) => some (Json.arr es, r2)
         | none => none)
    | '\x7b' :: rest =>
      (match jsonSkipWs rest with
       | '\x7d' :: r2 => some (Json.obj [], r2)
       | other =>
         match jsonMembers f other with
         | some (ms, r2) => some (Json.obj ms, r2)
         | none => none)
    | '-' :: rest =>
      (match rest.span Char.isDigit with
       | (ds, r) => if ds.isEmpty then none else some (Json.num (-(digitsToNat ds : Int)), r))
    | c :: rest =>
      if c.isDigit then
        match (c :: rest).span Char.isDigit with
        | (ds, r) => some (Json.num (digitsToNat ds : Int), r)
      else none
    | [] => none

/-- Parse the elements of a non-empty JSON array, up to the closing bracket. -/
def jsonElements (fuel : Nat) (cs : List Char) : Option (List Json × List Char) :=
  match fuel with
  | 0 => none
  | f + 1 =>
    match jsonValue f cs with
    | some (v, r) =>
      (match jsonSkipWs r with
       | ',' :: r2 => (jsonElements f r2).map (fun p => (v :: p.1, p.2))
       | ']' :: r2 => some ([v], r2)
       | _ => none)
    | none => none

/-- Parse the members of a non-empty JSON object, up to the closing brace. -/
def jsonMembers (fuel : Nat) (cs : List Char) : Option (List (String × Json) × List Char) :=
  match fuel with
  | 0 => none
  | f + 1 =>
    match jsonSkipWs cs with
    | '"' :: rest =>
      match jsonStringBody rest with
      | some (k, r) =>
        (match jsonSkipWs r with
         | ':' :: r2 =>
           match jsonValue f r2 with
           | some (v, r3) =>
             (match jsonSkipWs r3 with
              | ',' :: r4 => (jsonMembers f r4).map (fun p => ((String.mk k, v) :: p.1, p.2))
              | '\x7d' :: r4 => some ([(String.mk k, v)], r4)
              | _ => none)
           | none => none
         | _ => none)
      | none => none
    | _ => none

end

/-- Model of `JSON.parse` on one line of worker output: parse a single
JSON value and require only whitespace to remain. -/
def parseJson (s : String) : Option Json :=
  match jsonValue (2 * s.data.length + 2) s.data with
  | some (v, rest) => if (jsonSkipWs rest).isEmpty then some v else none
  | none => none

/-! Section: JavaScript semantics helpers -/

/-- JavaScript truthiness of a JSON value
(`false`, `0`, the empty string and `null` are falsy). -/
def jsTruthy : Json → Bool
  | Json.null => false
  | Json.bool b => b
  | Json.num n => n != 0
  | Json.str s => !(s == "")
  | Json.arr _ => true
  | Json.obj _ => true

/-- Truthiness of a possibly-absent (`undefined`) value. -/
def jsTruthyOpt : Option Json → Bool
  | none => false
  | some v => jsTruthy v

/-- Property access `v[key]` on a parsed JSON value: defined on objects
(last duplicate key wins, as in `JSON.parse`), `undefined` elsewhere. -/
def jsonGet (v : Json) (key : String) : Option Json :=
  match v with
  | Json.obj kvs => kvs.reverse.lookup key
  | _ => none

/-- The JavaScript `key in v` test, as used by `'success' in parsed`:
true only for objects that carry the key. -/
def jsonHasKey (v : Json) (key : String) : Bool :=
  match v with
  | Json.obj kvs => kvs.any (fun kv => kv.1 == key)
  | _ => false

/-- Is a possibly-absent value exactly the JSON literal `false`
(the strict test `parsed.success === false`)? -/
def isJsonFalse : Option Json → Bool
  | some (Json.bool false) => true
  | _ => false

/-- Model of `String.prototype.trim`. -/
def jsTrim (s : String) : String :=
  String.mk (((s.data.dropWhile Char.isWhitespace).reverse.dropWhile Char.isWhitespace).reverse)

/-- Splitting a character list at newline characters, keeping empty pieces. -/
def splitOnNewline : List Char → List (List Char)
  | [] => [[]]
  | '\n' :: rest => [] :: splitOnNewline rest
  | c :: rest =>
    match splitOnNewline rest with
    | [] => [[c]]
    | l :: ls => (c :: l) :: ls

/-- Model of `s.split('\n')`. -/
def jsSplitLines (s : String) : List String :=
  (splitOnNewline s.data).map String.mk

/-- Model of `String.prototype.includes` (substring test). -/
def jsIncludes (hay needle : String) : Bool :=
  (List.range (hay.data.length + 1)).any fun i => needle.data.isPrefixOf (hay.data.drop i)

/-! Section: Worker supervisor: `WorkerRunner.runWorker`

Source: `orchestrator/src/workerRunner.ts`.  The structured result the
promise resolves with; optional fields come straight from the parsed JSON
object (the code copies `result.publicUrl` etc. without conversion), so
they are modelled as optional JSON values; `error` likewise receives
either a literal message string or the raw `parsed.error` value.
-/

structure WorkerResult where
  success : Bool
  publicUrl : Option Json := none
  downloadUrl : Option Json := none
  jobId : Option Json := none
  error : Option Json := none
deriving Repr

/-- Default of the `TASK_TIMEOUT_MINUTES` configuration entry
(`orchestrator/src/config.ts`). -/
def TASK_TIMEOUT_MINUTES_default : Nat := 25

/-- One iteration of the backward scan over stdout lines (exit code 0
branch): the line is trimmed, empty lines are skipped, lines that fail
`JSON.parse` are skipped, and the loop stops at a parsed value that is a
truthy object carrying a `success` key (`parsed && typeof parsed ===
'object' && 'success' in parsed`; in our JSON model that condition is
exactly "an object with key success"). -/
def qualifySuccessLine (line : String) : Option Json :=
  let t := jsTrim line
  if t == "" then none
  else
    match parseJson t with
    | some v => if jsonHasKey v "success" then some v else none
    | none => none

/-- The `for (let i = lines.length - 1; i >= 0; i -= 1)` walk: applied to
the reversed line list, return the first qualifying parsed object. -/
def findSuccessObjRev : List String → Option Json
  | [] => none
  | l :: rest =>
    match qualifySuccessLine l with
    | some v => some v
    | none => findSuccessObjRev rest

/-- Failure message of the exit-code-0 branch when no usable result
object is found. -/
def noValidResultMsg : String := "Worker completed but no valid result URL found"

/-- The exit handler branch for `code === 0`: split trimmed stdout into
lines, scan from the last line backward for the last JSON object with a
`success` field, and resolve success exactly when that object has truthy
`success` and truthy `publicUrl`. -/
def handleExitZero (stdout : String) : WorkerResult :=
  let lines := jsSplitLines (jsTrim stdout)
  match findSuccessObjRev lines.reverse with
  | some v =>
    if jsTruthyOpt (jsonGet v "success") && jsTruthyOpt (jsonGet v "publicUrl") then
      { success := true
        publicUrl := jsonGet v "publicUrl"
        downloadUrl := jsonGet v "downloadUrl"
        jobId := jsonGet v "jobId" }
    else { success := false, error := some (Json.str noValidResultMsg) }
  | none => { success := false, error := some (Json.str noValidResultMsg) }

/-- The predicate of `lines.find(...)` in the non-zero-exit branch: the
line parses and the parsed value satisfies
`parsed.error || parsed.success === false`.  (A thrown property access on
`null` is caught and yields false, which coincides with the undefined
access of our model.) -/
def errorShapedLine (line : String) : Option Json :=
  match parseJson line with
  | some v =>
    if jsTruthyOpt (jsonGet v "error") || isJsonFalse (jsonGet v "success") then some v
    else none
  | none => none

/-- The generic message `Worker exited with code N`, with
` (signal: S)` appended when the signal is truthy
(a null exit code prints as `null`, as the JS template literal does). -/
def genericExitMsg (code : Option Int) (signal : Option String) : String :=
  let base := "Worker exited with code " ++ (match code with | some n => toString n | none => "null")
  match signal with
  | some s => if s == "" then base else base ++ " (signal: " ++ s ++ ")"
  | none => base

/-- The exit handler branch for a non-zero (or null) exit code: find the
FIRST line of the concatenated `stdout + stderr` (trimmed as a whole,
then split) that parses as an error-shaped object; use its `error` field
when truthy, the generic message otherwise. -/
def handleExitNonZero (code : Option Int) (signal : Option String)
    (stdout stderr : String) : WorkerResult :=
  let lines := jsSplitLines (jsTrim (stdout ++ stderr))
  let fallback := Json.str (genericExitMsg code signal)
  match lines.findSome? errorShapedLine with
  | some v =>
    (match jsonGet v "error" with
     | some e =>
       if jsTruthy e then { success := false, error := some e }
       else { success := false, error := some fallback }
     | none => { success := false, error := some fallback })
  | none => { success := false, error := some fallback }

/-- The `workerProcess.on('exit', (code, signal) => ...)` handler. -/
def handleExit (code : Option Int) (signal : Option String)
    (stdout stderr : String) : WorkerResult :=
  if code == some 0 then handleExitZero stdout
  else handleExitNonZero code signal stdout stderr

/-- Resolution of the `workerProcess.on('error', ...)` spawn-failure
handler. -/
def spawnErrorResult (msg : String) : WorkerResult :=
  { success := false, error := some (Json.str ("Failed to start worker: " ++ msg)) }

/-- The timeout message `Task timeout after N minutes`. -/
def timeoutMsg (timeoutMinutes : Nat) : String :=
  "Task timeout after " ++ toString timeoutMinutes ++ " minutes"

/-- Resolution of the `setTimeout` handler: kill the child and resolve a
failure mentioning the timeout. -/
def timeoutResult (timeoutMinutes : Nat) : WorkerResult :=
  { success := false, error := some (Json.str (timeoutMsg timeoutMinutes)) }

/-- Externally observable behaviour of one spawned child process: it
either fires the `error` event (spawn failure), fires the `exit` event
with an exit code or a terminating signal, or never terminates.  Event
times are in milliseconds since the spawn. -/
inductive ProcOutcome where
  | spawnFail (msg : String) (atMs : Nat)
  | exits (code : Option Int) (signal : Option String) (atMs : Nat)
  | neverExits
deriving Repr

/-- A child-process behaviour: the total captured streams and the
terminal event. -/
structure ProcBehavior where
  stdout : String
  stderr : String
  outcome : ProcOutcome

/-- The observable outcome of one `runWorker` call: the resolved
`WorkerResult`, whether a kill signal was sent to the child, and the
wall-clock time of the promise resolution. -/
structure WorkerRun where
  result : WorkerResult
  killed : Bool
  resolvedAtMs : Nat
deriving Repr

/-- Model of `WorkerRunner.runWorker`: a JS promise resolves once, so the
resolution is determined by whichever fires first of the process event
and the `setTimeout` at `TASK_TIMEOUT_MINUTES * 60 * 1000` ms.  The
process event clears the pending timer; the timer handler kills the
child.  (The later of the two events either was cancelled via
`clearTimeout` or hits an already-resolved promise, so it never changes
the result.) -/
def runWorker (timeoutMinutes : Nat) (b : ProcBehavior) : WorkerRun :=
  let timeoutMs := timeoutMinutes * 60 * 1000
  match b.outcome with
  | ProcOutcome.spawnFail msg atMs =>
    if atMs < timeoutMs then ⟨spawnErrorResult msg, false, atMs⟩
    else ⟨timeoutResult timeoutMinutes, true, timeoutMs⟩
  | ProcOutcome.exits code signal atMs =>
    if atMs < timeoutMs then ⟨handleExit code signal b.stdout b.stderr, false, atMs⟩
    else ⟨timeoutResult timeoutMinutes, true, timeoutMs⟩
  | ProcOutcome.neverExits => ⟨timeoutResult timeoutMinutes, true, timeoutMs⟩

/-! Section: Profile store: `AccountSelector.selectAvailableProfile`

Source: `orchestrator/src/accountSelector.ts` (the machine-scoped variant
whose selection stamps `lastRunAt`).  The `profiles` collection is a list
of documents; `findOne` with `sort: (lastRunAt : 1)` returns the first
document minimal in the ascending `lastRunAt` order with nulls first
(ISO-8601 timestamps compare lexicographically).  Profile names are the
unique natural key of the collection, so the `updateOne` on the selected
document `_id` is modelled as an update of the records carrying the
selected name.
-/

inductive ProfileStatus where
  | active
  | blocked
  | low_credit
  | disabled
deriving Repr, DecidableEq

structure ProfileRecord where
  name : String
  proxy : String := ""
  userDataDir : String := ""
  fingerprint : Option String := none
  machineId : String
  status : ProfileStatus
  creditRemaining : Option Int := none
  dailyRunCount : Nat := 0
  lastRunAt : Option String := none
  lastCreditCheckAt : Option String := none
  createdAt : String := ""
  updatedAt : String := ""
deriving Repr, DecidableEq

/-- The storage operations one `selectAvailableProfile` call issues, in
order: the `find(\x7b\x7d).toArray()` logging read, the eligibility
`findOne`, and (on selection) the separate lastRunAt `updateOne`. -/
inductive ProfileStoreOp where
  | findAllProfiles
  | findOneEligible
  | updateLastRun (name : String)
deriving Repr, DecidableEq

/-- The eligibility filter of the `findOne` query: owned by this machine,
status active, credit at least 5 or not yet measured, and not in the
exclusion list (an empty `$nin` list excludes nothing). -/
def profileEligible (machineId : String) (excludeProfileNames : List String)
    (p : ProfileRecord) : Bool :=
  p.machineId == machineId && p.status == ProfileStatus.active &&
    (match p.creditRemaining with
     | some c => decide (5 ≤ c)
     | none => true) &&
    !(excludeProfileNames.contains p.name)

/-- Strict comparison of `lastRunAt` sort keys: null sorts before every
timestamp, timestamps compare lexicographically. -/
def lastRunLT : Option String → Option String → Bool
  | none, none => false
  | none, some _ => true
  | some _, none => false
  | some a, some b => decide (a < b)

/-- Keep the record that sorts strictly earlier (ties keep the earlier
document of the collection). -/
def olderProfile (a b : ProfileRecord) : ProfileRecord :=
  if lastRunLT b.lastRunAt a.lastRunAt then b else a

/-- Model of `findOne` with ascending `lastRunAt` sort: the first
document of the filtered collection that is minimal in the sort order. -/
def findOneByLastRun : List ProfileRecord → Option ProfileRecord
  | [] => none
  | p :: ps => some (ps.foldl olderProfile p)

/-- Result of one `selectAvailableProfile` call: the returned document,
the collection afterwards, and the trace of storage operations issued. -/
structure SelectOutcome where
  result : Option ProfileRecord
  store : List ProfileRecord
  ops : List ProfileStoreOp
deriving Repr

/-- Model of `AccountSelector.selectAvailableProfile(excludeProfileNames)`:
read all profiles (logging), `findOne` the least-recently-run eligible
profile for this machine, and if one was found, stamp its `lastRunAt` and
`updatedAt` with a separate `updateOne` before returning it.  The
returned document is the one read by `findOne` (before the stamp). -/
def selectAvailableProfile (machineId : String) (excludeProfileNames : List String)
    (now : String) (store : List ProfileRecord) : SelectOutcome :=
  let ops0 := [ProfileStoreOp.findAllProfiles, ProfileStoreOp.findOneEligible]
  match findOneByLastRun (store.filter (profileEligible machineId excludeProfileNames)) with
  | none => ⟨none, store, ops0⟩
  | some p =>
    ⟨some p,
     store.map (fun q =>
       if q.name == p.name then { q with lastRunAt := some now, updatedAt := now } else q),
     ops0 ++ [ProfileStoreOp.updateLastRun p.name]⟩

/-! Section: Task record store: `TaskStore`

Source: `orchestrator/src/taskStore.ts`.  The `tasks` collection is a
list of `TaskRecord` documents with `taskId` as unique key.
-/

inductive TaskStatus where
  | pending
  | claimed
  | processing
  | completed
  | failed
  | timeout
deriving Repr, DecidableEq

/-- The task payload claimed from the task source
(`TaskData` of `orchestrator/src/taskClient.ts`). -/
structure TaskData where
  id : String
  prompt : String := ""
  image_urls : Option (List String) := none
  timing : Option Nat := none
  resolution : Option String := none
  dimension : Option String := none
  count : Option Nat := none
  generate_type : Option String := none
deriving Repr, DecidableEq

structure TaskRecord where
  taskId : String
  productCode : String
  prompt : String := ""
  imageUrls : Option (List String) := none
  timing : Option Nat := none
  resolution : Option String := none
  dimension : Option String := none
  count : Option Nat := none
  generateType : Option String := none
  status : TaskStatus
  profileName : Option String := none
  publicUrl : Option String := none
  error : Option String := none
  claimedAt : Option String := none
  startedAt : Option String := none
  completedAt : Option String := none
  createdAt : String
  updatedAt : String
deriving Repr, DecidableEq

/-- The record `TaskStore.saveTask` builds for a freshly claimed task. -/
def mkClaimedTaskRecord (task : TaskData) (productCode now : String) : TaskRecord :=
  { taskId := task.id
    productCode := productCode
    prompt := task.prompt
    imageUrls := task.image_urls
    timing := task.timing
    resolution := task.resolution
    dimension := task.dimension
    count := task.count
    generateType := task.generate_type
    status := TaskStatus.claimed
    claimedAt := some now
    createdAt := now
    updatedAt := now }

/-- Model of `TaskStore.saveTask`: an upsert whose update document is
pure `$setOnInsert`, so a present `taskId` leaves the collection
untouched and an absent one inserts the claimed record. -/
def saveTask (store : List TaskRecord) (task : TaskData) (productCode now : String) :
    List TaskRecord :=
  if store.any (fun r => r.taskId == task.id) then store
  else store ++ [mkClaimedTaskRecord task productCode now]

/-- Model of `TaskStore.getTask` (`findOne` on `taskId`). -/
def getTask (store : List TaskRecord) (taskId : String) : Option TaskRecord :=
  store.find? (fun r => r.taskId == taskId)

/-- Number of stored documents carrying a task id. -/
def countTaskId (store : List TaskRecord) (taskId : String) : Nat :=
  (store.filter (fun r => r.taskId == taskId)).length

/-- The `Partial<TaskRecord>` argument of `updateTaskStatus`, restricted
to the fields its callers supply; a field set to `none` is absent from
the JS object (and so not touched by the `$set`). -/
structure TaskPatch where
  status : Option TaskStatus := none
  profileName : Option String := none
  publicUrl : Option String := none
  error : Option String := none
  startedAt : Option String := none
  completedAt : Option String := none
  updatedAt : Option String := none
deriving Repr, DecidableEq

/-- The falsiness test `!updateData.startedAt` on an optional string
field: absent or the empty string. -/
def optStrFalsy : Option String → Bool
  | none => true
  | some s => s == ""

/-- The `updateData` object of `TaskStore.updateTaskStatus`: start from
`(status, updatedAt: now)` overridden by the spread of `updates`, then

* entering `processing` stamps `startedAt := now` unless already set,
* entering `completed` stamps `completedAt := now` unless already set,
* entering `failed` or `timeout` stamps `completedAt := now`
  unconditionally.

(The code asks `new Date()` for each stamp; the sub-millisecond
differences between those reads are collapsed into one `now`.) -/
def buildUpdateData (status : TaskStatus) (updates : TaskPatch) (now : String) : TaskPatch :=
  let u : TaskPatch :=
    { updates with
      status := some (updates.status.getD status)
      updatedAt := some (updates.updatedAt.getD now) }
  let u := if status == TaskStatus.processing && optStrFalsy u.startedAt then
      { u with startedAt := some now } else u
  let u := if status == TaskStatus.completed && optStrFalsy u.completedAt then
      { u with completedAt := some now } else u
  if status == TaskStatus.failed || status == TaskStatus.timeout then
    { u with completedAt := some now } else u

/-- One field of a `$set`: present fields replace, absent fields keep the
stored value. -/
def patchField (patch old : Option α) : Option α :=
  match patch with
  | some v => some v
  | none => old

/-- Apply the `$set` of an update document to one stored record. -/
def applyTaskPatch (r : TaskRecord) (u : TaskPatch) : TaskRecord :=
  { r with
    status := u.status.getD r.status
    profileName := patchField u.profileName r.profileName
    publicUrl := patchField u.publicUrl r.publicUrl
    error := patchField u.error r.error
    startedAt := patchField u.startedAt r.startedAt
    completedAt := patchField u.completedAt r.completedAt
    updatedAt := u.updatedAt.getD r.updatedAt }

/-- `updateOne` without upsert: patch the first document matching the
filter, leave the collection unchanged when none matches. -/
def updateFirstTask (store : List TaskRecord) (taskId : String)
    (f : TaskRecord → TaskRecord) : List TaskRecord :=
  match store with
  | [] => []
  | r :: rest =>
    if r.taskId == taskId then f r :: rest else r :: updateFirstTask rest taskId f

/-- Model of `TaskStore.updateTaskStatus(taskId, status, updates)`. -/
def updateTaskStatus (store : List TaskRecord) (taskId : String) (status : TaskStatus)
    (updates : TaskPatch) (now : String) : List TaskRecord :=
  updateFirstTask store taskId (fun r => applyTaskPatch r (buildUpdateData status updates now))

/-! Section: Scheduler: the `Orchestrator` class

Source: `orchestrator/src/index.ts`.  Two views are embedded.

The first is an event system for the concurrency bound.  The JS runtime
is single threaded: only `tryClaimAndStartTask` (serialized by the main
poll loop) adds to the `activeWorkers` map and only `handleWorkerComplete`
removes.  A tick is modelled by two events surrounding its await points:
`tickStart` is the `canStartNewWorker()` check at the top of
`tryClaimAndStartTask`, and `tickFinish` is the later
`activeWorkers.set(taskId, ...)` (or the abandonment of the tick when no
profile or no task was available).  Any number of `complete` events
(`handleWorkerComplete` deletions) may interleave between the two, which
is exactly the freedom the awaited store and API calls create.  The main
loop never starts a tick before the previous one finished, hence the
`pending` flag guard.
-/

structure SchedState where
  active : Finset String
  pending : Bool

inductive SchedEvent where
  | tickStart
  | tickFinish (profileFound : Bool) (claimedTask : Option String)
  | complete (taskId : String)

/-- One scheduler event against the in-memory state, with
`MAX_CONCURRENT_WORKERS = k`. -/
def schedStep (k : Nat) (s : SchedState) : SchedEvent → SchedState
  | SchedEvent.tickStart =>
    if s.pending then s
    else if s.active.card < k then { s with pending := true } else s
  | SchedEvent.tickFinish profileFound claimedTask =>
    if s.pending then
      match profileFound, claimedTask with
      | true, some tid => ⟨insert tid s.active, false⟩
      | _, _ => { s with pending := false }
    else s
  | SchedEvent.complete tid => { s with active := s.active.erase tid }

/-- A run of the orchestrator from its initial empty worker map. -/
def schedRun (k : Nat) (events : List SchedEvent) : SchedState :=
  events.foldl (schedStep k) ⟨∅, false⟩

/-! The second view is the sequential body of one
`tryClaimAndStartTask` call, with the results of the awaited external
calls (`selectAvailableProfile`, `claimTask`) as oracle arguments, and
the external calls it performs as an explicit ordered trace. -/

inductive OrchCall where
  | selectProfile
  | claimTask (productCode : String)
  | saveTask (taskId : String)
  | updateStatusProcessing (taskId : String) (profileName : String)
  | runWorkerStart (taskId : String) (profileName : String)
deriving Repr, DecidableEq

/-- The calls `startWorker` performs for a claimed task, in order: persist
the record, transition it to processing with the assigned profile, start
the worker without awaiting it. -/
def startWorkerCalls (t : TaskData) (p : ProfileRecord) : List OrchCall :=
  [OrchCall.saveTask t.id,
   OrchCall.updateStatusProcessing t.id p.name,
   OrchCall.runWorkerStart t.id p.name]

/-- Model of `Orchestrator.tryClaimAndStartTask`: skip when saturated;
select a profile and skip when none; only then claim a task and skip when
none; else start the worker.  Returns whether a worker was started and
the trace of external calls made. -/
def tryClaimAndStartTask (canStart : Bool) (profile : Option ProfileRecord)
    (task : Option TaskData) (productCode : String) : Bool × List OrchCall :=
  if !canStart then (false, [])
  else
    match profile with
    | none => (false, [OrchCall.selectProfile])
    | some p =>
      match task with
      | none => (false, [OrchCall.selectProfile, OrchCall.claimTask productCode])
      | some t =>
        (true, [OrchCall.selectProfile, OrchCall.claimTask productCode] ++ startWorkerCalls t p)

/-! Completion reconciliation: `Orchestrator.handleWorkerComplete`. -/

structure ActiveWorkerEntry where
  taskId : String
  profileName : String
deriving Repr, DecidableEq

inductive ReconcileCall where
  | updateStatus (taskId : String) (status : TaskStatus)
  | incrementStats (outcome : String)
  | completeTask (taskId : String)
  | reportTask (taskId : String)
  | notifyError (taskId : String) (profileName : String)
deriving Repr, DecidableEq

/-- `Map.delete` on an association list with unique keys: remove the
first entry with the key. -/
def eraseKeyFirst : List (String × ActiveWorkerEntry) → String → List (String × ActiveWorkerEntry)
  | [], _ => []
  | kv :: rest, k => if kv.1 == k then rest else kv :: eraseKeyFirst rest k

/-- The message `result.error || 'Unknown error'`.  Every result the
runner resolves carries a string (or absent) `error` except when a parsed
`error` value of the child output is a non-string; there the later
`.includes` call would itself throw inside the `try`, which the throw
oracle of `handleWorkerComplete` covers. -/
def workerErrMsg (r : WorkerResult) : String :=
  match r.error with
  | some (Json.str s) => if s == "" then "Unknown error" else s
  | _ => "Unknown error"

/-- The timeout classification by substring match. -/
def isTimeoutMsg (msg : String) : Bool :=
  jsIncludes msg "timeout" || jsIncludes msg "Timeout"

/-- The reconciliation calls of the `try` block of
`handleWorkerComplete`, in program order. -/
def reconcileCalls (taskId profileName : String) (result : WorkerResult) : List ReconcileCall :=
  if result.success && jsTruthyOpt result.publicUrl then
    [ReconcileCall.updateStatus taskId TaskStatus.completed,
     ReconcileCall.incrementStats "completed",
     ReconcileCall.completeTask taskId]
  else
    let msg := workerErrMsg result
    let st := if isTimeoutMsg msg then TaskStatus.timeout else TaskStatus.failed
    [ReconcileCall.updateStatus taskId st,
     ReconcileCall.incrementStats "failed",
     ReconcileCall.reportTask taskId,
     ReconcileCall.notifyError taskId profileName]

/-- Model of `Orchestrator.handleWorkerComplete(taskId, result)`: look the
task id up in the active-worker map; when absent, log and return without
any external call; when present, delete the map entry first and then run
the reconciliation inside a `try` whose `catch` only logs.  The oracle
`throwsAt` names the first reconciliation call that throws (if any):
calls after it are skipped, the exception is swallowed.  Returns the map
afterwards and the trace of reconciliation calls attempted. -/
def handleWorkerComplete (activeWorkers : List (String × ActiveWorkerEntry))
    (taskId : String) (result : WorkerResult) (throwsAt : Option Nat) :
    List (String × ActiveWorkerEntry) × List ReconcileCall :=
  match activeWorkers.lookup taskId with
  | none => (activeWorkers, [])
  | some w =>
    let m := eraseKeyFirst activeWorkers taskId
    let calls := reconcileCalls taskId w.profileName result
    let performed :=
      match throwsAt with
      | none => calls
      | some i => calls.take (i + 1)
    (m, performed)

/-- Invariant measure of the scheduler state: active workers plus the
worker a pending tick may still add. -/
def schedMeasure (s : SchedState) : Nat :=
  s.active.card + (if s.pending then 1 else 0)

/-- Spec-side definition (from the words of the specification, for
comparison with the code): the non-zero-exit branch applies "the same
scan" as the zero-exit branch, i.e. a last-line-backward scan of the
combined output for an error-shaped object. -/
def specLastBackwardErrorScan (stdout stderr : String) : Option Json :=
  (jsSplitLines (jsTrim (stdout ++ stderr))).reverse.findSome? errorShapedLine

/-- Profile document used by concrete witness instances. -/
def sampleProfile : ProfileRecord :=
  { name := "p1", machineId := "m1", status := ProfileStatus.active }

/-- Second profile document used by concrete witness instances. -/
def sampleProfile2 : ProfileRecord :=
  { name := "q1", machineId := "m1", status := ProfileStatus.active }

/-- Task payload used by concrete witness instances. -/
def sampleTask : TaskData := { id := "t1" }

/-! Section: Theorems -/

/-- Sanity check of the JSON.parse model on the worker protocol lines. -/
theorem parseJson_sanity :
    parseJson "\x7b\"success\":true,\"publicUrl\":\"https://x/1\"\x7d"
        = some (Json.obj [("success", Json.bool true), ("publicUrl", Json.str "https://x/1")])
    ∧ parseJson "not json" = none
    ∧ parseJson " \x7b\"a\":[1,-2,null]\x7d "
        = some (Json.obj [("a", Json.arr [Json.num 1, Json.num (-2), Json.null])])
    ∧ jsSplitLines "a\nb\n" = ["a", "b", ""]
    ∧ jsIncludes "Task timeout after 25 minutes" "timeout" = true :=
  ⟨rfl, rfl, rfl, rfl, rfl⟩

/-- Sanity check of the runWorker model on three end-to-end behaviours. -/
theorem runWorker_sanity :
    (runWorker 25 ⟨"log\n\x7b\"success\":true,\"publicUrl\":\"https://x/1\"\x7d\n", "",
        ProcOutcome.exits (some 0) none 1000⟩).result.publicUrl
      = some (Json.str "https://x/1")
    ∧ (runWorker 25 ⟨"", "\x7b\"success\":false,\"error\":\"policy violation\"\x7d",
        ProcOutcome.exits (some 1) none 1000⟩).result.error
      = some (Json.str "policy violation")
    ∧ (runWorker 25 ⟨"", "", ProcOutcome.neverExits⟩).result.error
      = some (Json.str "Task timeout after 25 minutes") :=
  ⟨rfl, rfl, rfl⟩


theorem schedStep_measure_le (k : Nat) (s : SchedState) (e : SchedEvent)
    (h : schedMeasure s ≤ k) : schedMeasure (schedStep k s e) ≤ k := by
  cases e with
  | tickStart =>
    cases hp : s.pending with
    | true => simpa [schedStep, hp] using h
    | false =>
      by_cases hc : s.active.card < k
      · have he : schedMeasure (schedStep k s SchedEvent.tickStart) = s.active.card + 1 := by
          simp [schedStep, hp, hc, schedMeasure]
        omega
      · simpa [schedStep, hp, hc] using h
  | tickFinish profileFound claimedTask =>
    cases hp : s.pending with
    | false => simpa [schedStep, hp] using h
    | true =>
      have hm : s.active.card + 1 ≤ k := by simpa [schedMeasure, hp] using h
      cases profileFound with
      | true =>
        cases claimedTask with
        | some tid =>
          have h1 : (insert tid s.active).card ≤ s.active.card + 1 :=
            Finset.card_insert_le _ _
          have he : schedMeasure (schedStep k s (SchedEvent.tickFinish true (some tid)))
              = (insert tid s.active).card := by
            simp [schedStep, hp, schedMeasure]
          omega
        | none =>
          have he : schedMeasure (schedStep k s (SchedEvent.tickFinish true none))
              = s.active.card := by
            simp [schedStep, hp, schedMeasure]
          omega
      | false =>
        have he : schedMeasure (schedStep k s (SchedEvent.tickFinish false claimedTask))
            = s.active.card := by
          simp [schedStep, hp, schedMeasure]
        omega
  | complete tid =>
    have h1 : (s.active.erase tid).card ≤ s.active.card := Finset.card_erase_le
    cases hp : s.pending with
    | true =>
      have he : schedMeasure (schedStep k s (SchedEvent.complete tid))
          = (s.active.erase tid).card + 1 := by
        simp [schedStep, schedMeasure, hp]
      have h2 : s.active.card + 1 ≤ k := by simpa [schedMeasure, hp] using h
      omega
    | false =>
      have he : schedMeasure (schedStep k s (SchedEvent.complete tid))
          = (s.active.erase tid).card := by
        simp [schedStep, schedMeasure, hp]
      have h2 : s.active.card ≤ k := by simpa [schedMeasure, hp] using h
      omega

theorem foldl_schedStep_measure_le (k : Nat) (events : List SchedEvent) :
    ∀ s : SchedState, schedMeasure s ≤ k →
      schedMeasure (events.foldl (schedStep k) s) ≤ k := by
  induction events with
  | nil => intro s h; simpa using h
  | cons e rest ih =>
    intro s h
    exact ih _ (schedStep_measure_le k s e h)

/-- C2: with `MAX_CONCURRENT_WORKERS = k`, the in-memory active-worker
map never holds more than k entries, for every interleaving of tick
checks, tick worker starts and completion deletions; and a tick starts a
new worker only when the check at its start saw strictly fewer than k
active workers. -/
theorem C2_theorem (k : Nat) (events : List SchedEvent) :
    (schedRun k events).active.card ≤ k
    ∧ (∀ s : SchedState, (schedStep k s SchedEvent.tickStart).pending = true →
        s.pending = true ∨ s.active.card < k) := by
  constructor
  · have h := foldl_schedStep_measure_le k events ⟨∅, false⟩ (by simp [schedMeasure])
    have : (schedRun k events).active.card ≤ schedMeasure (schedRun k events) := by
      simp [schedMeasure]
    exact le_trans this h
  · intro s hs
    cases hp : s.pending with
    | true => exact Or.inl rfl
    | false =>
      by_cases hc : s.active.card < k
      · exact Or.inr hc
      · simp [schedStep, hp, hc] at hs

/-- C2 witness: a concrete run with k = 1 stays within the bound, and
the guard implication holds at the initial state. -/
theorem C2_witness :
    (schedRun 1 [SchedEvent.tickStart, SchedEvent.tickFinish true (some "t1"),
        SchedEvent.tickStart, SchedEvent.complete "t1"]).active.card ≤ 1
    ∧ ((⟨∅, false⟩ : SchedState).pending = true ∨ (⟨∅, false⟩ : SchedState).active.card < 1) :=
  ⟨(C2_theorem 1 _).1, (C2_theorem 1 []).2 ⟨∅, false⟩ rfl⟩

/-- C3: in one tick, no task is claimed when profile selection returned
none, and every claim call happens directly after a successful profile
selection. -/
theorem C3_theorem (canStart : Bool) (profile : Option ProfileRecord)
    (task : Option TaskData) (pc : String) :
    (profile = none → ∀ s, OrchCall.claimTask s ∉ (tryClaimAndStartTask canStart profile task pc).2)
    ∧ (∀ s, OrchCall.claimTask s ∈ (tryClaimAndStartTask canStart profile task pc).2 →
        ∃ p, profile = some p ∧
          ∃ rest, (tryClaimAndStartTask canStart profile task pc).2
            = OrchCall.selectProfile :: OrchCall.claimTask s :: rest) := by
  constructor
  · intro hnone s
    cases canStart <;> simp [tryClaimAndStartTask, hnone]
  · intro s hs
    cases canStart with
    | false => simp [tryClaimAndStartTask] at hs
    | true =>
      cases profile with
      | none => simp [tryClaimAndStartTask] at hs
      | some p =>
        cases task with
        | none =>
          have hcalls : (tryClaimAndStartTask true (some p) none pc).2
              = [OrchCall.selectProfile, OrchCall.claimTask pc] := by
            simp [tryClaimAndStartTask]
          rw [hcalls] at hs
          have hspc : s = pc := by simpa using hs
          exact ⟨p, rfl, [], by rw [hcalls, hspc]⟩
        | some t =>
          have hcalls : (tryClaimAndStartTask true (some p) (some t) pc).2
              = OrchCall.selectProfile :: OrchCall.claimTask pc :: startWorkerCalls t p := by
            simp [tryClaimAndStartTask]
          rw [hcalls] at hs
          have hspc : s = pc := by simpa [startWorkerCalls] using hs
          exact ⟨p, rfl, startWorkerCalls t p, by rw [hcalls, hspc]⟩

/-- C3 witness: with no profile available no claim call appears in the
trace, and in a tick that did claim, the claim follows the selection. -/
theorem C3_witness :
    (OrchCall.claimTask "sora-2" ∉ (tryClaimAndStartTask true none
        (some sampleTask) "sora-2").2)
    ∧ (∃ p, some sampleProfile = some p ∧
        ∃ rest, (tryClaimAndStartTask true (some sampleProfile)
            (some sampleTask) "sora-2").2
          = OrchCall.selectProfile :: OrchCall.claimTask "sora-2" :: rest) :=
  ⟨(C3_theorem true none (some sampleTask) "sora-2").1 rfl "sora-2",
   (C3_theorem true (some sampleProfile) (some sampleTask) "sora-2").2 "sora-2"
     (by simp [tryClaimAndStartTask, startWorkerCalls])⟩

/-- C5: `runWorker` resolves a `WorkerResult` on every process behaviour,
and a spawn failure (the `error` event firing before the timeout) is
folded into a resolved failure carrying the spawn error message. -/
theorem C5_theorem (tmin : Nat) (b : ProcBehavior) :
    (∃ r : WorkerResult, (runWorker tmin b).result = r)
    ∧ (∀ msg atMs, b.outcome = ProcOutcome.spawnFail msg atMs →
        atMs < tmin * 60 * 1000 →
        (runWorker tmin b).result
          = { success := false, error := some (Json.str ("Failed to start worker: " ++ msg)) }) := by
  refine ⟨⟨(runWorker tmin b).result, rfl⟩, ?_⟩
  intro msg atMs hout hlt
  simp [runWorker, hout, hlt, spawnErrorResult]

/-- C5 witness: a concrete spawn failure resolves the folded failure
result. -/
theorem C5_witness :
    (runWorker 25 ⟨"", "", ProcOutcome.spawnFail "spawn ENOENT" 3⟩).result
      = { success := false, error := some (Json.str "Failed to start worker: spawn ENOENT") } :=
  (C5_theorem 25 ⟨"", "", ProcOutcome.spawnFail "spawn ENOENT" 3⟩).2 "spawn ENOENT" 3 rfl
    (by decide)

theorem jsIncludes_of_split (hay pre mid post : String)
    (h : hay.data = pre.data ++ mid.data ++ post.data) : jsIncludes hay mid = true := by
  unfold jsIncludes
  apply List.any_eq_true.mpr
  refine ⟨pre.data.length, List.mem_range.mpr ?_, ?_⟩
  · rw [h]
    simp only [List.length_append]
    omega
  · rw [h, List.append_assoc, List.drop_left]
    exact List.isPrefixOf_iff_prefix.mpr (List.prefix_append _ _)

theorem jsIncludes_timeoutMsg (tmin : Nat) :
    jsIncludes (timeoutMsg tmin) "timeout" = true := by
  apply jsIncludes_of_split (timeoutMsg tmin) "Task " "timeout"
      (" after " ++ (toString tmin ++ " minutes"))
  simp only [timeoutMsg, String.data_append]
  simp [List.append_assoc]

/-- C4: when the child never exits, `runWorker` resolves at the
configured wall-clock timeout with a failed result whose message mentions
the timeout, and the child is sent a kill signal; when the child does
exit, whichever of the exit event and the timeout fires first determines
the resolved result (the promise resolves once); and the configured
default of `TASK_TIMEOUT_MINUTES` is 25 minutes. -/
theorem C4_theorem (tmin : Nat) (b : ProcBehavior) :
    (b.outcome = ProcOutcome.neverExits →
      (runWorker tmin b).result.success = false
      ∧ (runWorker tmin b).killed = true
      ∧ (runWorker tmin b).resolvedAtMs = tmin * 60 * 1000
      ∧ (runWorker tmin b).result.error = some (Json.str (timeoutMsg tmin))
      ∧ jsIncludes (timeoutMsg tmin) "timeout" = true)
    ∧ (∀ code sig atMs, b.outcome = ProcOutcome.exits code sig atMs →
        (atMs < tmin * 60 * 1000 →
          runWorker tmin b = ⟨handleExit code sig b.stdout b.stderr, false, atMs⟩)
        ∧ (tmin * 60 * 1000 ≤ atMs →
          runWorker tmin b = ⟨timeoutResult tmin, true, tmin * 60 * 1000⟩))
    ∧ TASK_TIMEOUT_MINUTES_default = 25 := by
  refine ⟨?_, ?_, rfl⟩
  · intro hout
    refine ⟨?_, ?_, ?_, ?_, jsIncludes_timeoutMsg tmin⟩ <;>
      simp [runWorker, hout, timeoutResult]
  · intro code sig atMs hout
    constructor
    · intro hlt
      simp [runWorker, hout, hlt]
    · intro hge
      have hnlt : ¬ atMs < tmin * 60 * 1000 := by omega
      simp [runWorker, hout, hnlt]

/-- C4 witness: a never-exiting child at the default 25-minute timeout. -/
theorem C4_witness :
    (runWorker 25 ⟨"", "", ProcOutcome.neverExits⟩).result.success = false
    ∧ (runWorker 25 ⟨"", "", ProcOutcome.neverExits⟩).killed = true
    ∧ (runWorker 25 ⟨"", "", ProcOutcome.neverExits⟩).resolvedAtMs = 25 * 60 * 1000
    ∧ (runWorker 25 ⟨"", "", ProcOutcome.neverExits⟩).result.error
        = some (Json.str (timeoutMsg 25))
    ∧ jsIncludes (timeoutMsg 25) "timeout" = true :=
  (C4_theorem 25 ⟨"", "", ProcOutcome.neverExits⟩).1 rfl

theorem findSuccessObjRev_eq_none (xs : List String)
    (h : ∀ x ∈ xs, qualifySuccessLine x = none) : findSuccessObjRev xs = none := by
  induction xs with
  | nil => rfl
  | cons x rest ih =>
    have hx : qualifySuccessLine x = none := h x (List.mem_cons_self x rest)
    simp only [findSuccessObjRev, hx]
    exact ih (fun y hy => h y (List.mem_cons_of_mem x hy))

theorem findSuccessObjRev_append (xs ys : List String)
    (h : ∀ x ∈ xs, qualifySuccessLine x = none) :
    findSuccessObjRev (xs ++ ys) = findSuccessObjRev ys := by
  induction xs with
  | nil => rfl
  | cons x rest ih =>
    have hx : qualifySuccessLine x = none := h x (List.mem_cons_self x rest)
    simp only [List.cons_append, findSuccessObjRev, hx]
    exact ih (fun y hy => h y (List.mem_cons_of_mem x hy))

/-- C6: on exit code 0, the resolved result is determined by the LAST
stdout line that parses as a JSON object with a `success` field
(interleaved diagnostic lines before and after are tolerated): with no
such line the result is the no-valid-result failure, and with such a line
the result is success with its URL fields exactly when the object has
truthy `success` and truthy `publicUrl`, the no-valid-result failure
otherwise. -/
theorem C6_theorem (tmin : Nat) (b : ProcBehavior) (sig : Option String) (ms : Nat)
    (hout : b.outcome = ProcOutcome.exits (some 0) sig ms)
    (hms : ms < tmin * 60 * 1000) :
    ((∀ x ∈ jsSplitLines (jsTrim b.stdout), qualifySuccessLine x = none) →
      (runWorker tmin b).result = { success := false, error := some (Json.str noValidResultMsg) })
    ∧ (∀ l1 l l2 v, jsSplitLines (jsTrim b.stdout) = l1 ++ l :: l2 →
        qualifySuccessLine l = some v →
        (∀ x ∈ l2, qualifySuccessLine x = none) →
        (runWorker tmin b).result =
          (if jsTruthyOpt (jsonGet v "success") && jsTruthyOpt (jsonGet v "publicUrl") then
            { success := true, publicUrl := jsonGet v "publicUrl",
              downloadUrl := jsonGet v "downloadUrl", jobId := jsonGet v "jobId" }
          else { success := false, error := some (Json.str noValidResultMsg) })) := by
  have hrun : (runWorker tmin b).result = handleExitZero b.stdout := by
    simp [runWorker, hout, hms, handleExit]
  constructor
  · intro hall
    have hnone : findSuccessObjRev (jsSplitLines (jsTrim b.stdout)).reverse = none :=
      findSuccessObjRev_eq_none _ (fun x hx => hall x (List.mem_reverse.mp hx))
    rw [hrun]
    simp [handleExitZero, hnone]
  · intro l1 l l2 v hsplit hl hl2
    have hrev : (jsSplitLines (jsTrim b.stdout)).reverse = l2.reverse ++ l :: l1.reverse := by
      rw [hsplit]
      simp
    have hfind : findSuccessObjRev (jsSplitLines (jsTrim b.stdout)).reverse = some v := by
      rw [hrev, findSuccessObjRev_append _ _ (fun x hx => hl2 x (List.mem_reverse.mp hx))]
      simp [findSuccessObjRev, hl]
    rw [hrun]
    simp only [handleExitZero, hfind]

/-- C6 counterexample: the child emits a final JSON line whose `success`
value is the number 1 (truthy but not the boolean `true`) together with a
result URL; the code resolves SUCCESS, whereas the claim (`success=true`
with a result URL, failure in every other case) demands failure here. -/
theorem C6_counterexample :
    (runWorker 25 ⟨"\x7b\"success\":1,\"publicUrl\":\"https://x/1\"\x7d", "",
        ProcOutcome.exits (some 0) none 0⟩).result.success = true
    ∧ (findSuccessObjRev
        (jsSplitLines (jsTrim "\x7b\"success\":1,\"publicUrl\":\"https://x/1\"\x7d")).reverse).map
        (fun v => jsonGet v "success") = some (some (Json.num 1))
    ∧ Json.num 1 ≠ Json.bool true :=
  ⟨rfl, rfl, fun h => Json.noConfusion h⟩

/-- C6 witness (for the amended claim): diagnostic lines surround the
final result object; the last object with a `success` field wins and its
truthy `success` and `publicUrl` resolve success with that URL. -/
theorem C6_witness :
    (runWorker 25 ⟨"diag\n\x7b\"success\":true,\"publicUrl\":\"https://x/1\"\x7d\nbye", "",
        ProcOutcome.exits (some 0) none 5⟩).result
      = { success := true, publicUrl := some (Json.str "https://x/1"),
          downloadUrl := none, jobId := none } :=
  (C6_theorem 25 ⟨"diag\n\x7b\"success\":true,\"publicUrl\":\"https://x/1\"\x7d\nbye", "",
      ProcOutcome.exits (some 0) none 5⟩ none 5 rfl (by decide)).2
    ["diag"] "\x7b\"success\":true,\"publicUrl\":\"https://x/1\"\x7d" ["bye"]
    (Json.obj [("success", Json.bool true), ("publicUrl", Json.str "https://x/1")])
    rfl rfl (fun x hx => by rw [List.mem_singleton.mp hx]; rfl)

theorem listFindSomeEqNoneOfAll {α β : Type} (f : α → Option β) (xs : List α)
    (h : ∀ x ∈ xs, f x = none) : xs.findSome? f = none :=
  List.findSome?_eq_none_iff.mpr h

/-- C7 (amended direction): on a non-zero (or null) exit code, the result
is determined by the FIRST line of the combined output that parses as an
error-shaped object (truthy `error` field or `success === false`): its
truthy `error` value becomes the result error, the generic
exited-with-code message is used when the object has no truthy `error`
or no error-shaped line exists. -/
theorem C7_theorem (tmin : Nat) (b : ProcBehavior) (code : Option Int) (sig : Option String)
    (ms : Nat) (hcode : code ≠ some 0)
    (hout : b.outcome = ProcOutcome.exits code sig ms)
    (hms : ms < tmin * 60 * 1000) :
    ((∀ x ∈ jsSplitLines (jsTrim (b.stdout ++ b.stderr)), errorShapedLine x = none) →
      (runWorker tmin b).result
        = { success := false, error := some (Json.str (genericExitMsg code sig)) })
    ∧ (∀ l1 l l2 v, jsSplitLines (jsTrim (b.stdout ++ b.stderr)) = l1 ++ l :: l2 →
        errorShapedLine l = some v →
        (∀ x ∈ l1, errorShapedLine x = none) →
        (runWorker tmin b).result = { success := false, error := some (
            match jsonGet v "error" with
            | some e => if jsTruthy e then e else Json.str (genericExitMsg code sig)
            | none => Json.str (genericExitMsg code sig)) }) := by
  have hrun : (runWorker tmin b).result = handleExitNonZero code sig b.stdout b.stderr := by
    simp [runWorker, hout, hms, handleExit, hcode]
  constructor
  · intro hall
    have hnone : (jsSplitLines (jsTrim (b.stdout ++ b.stderr))).findSome? errorShapedLine = none :=
      List.findSome?_eq_none_iff.mpr hall
    rw [hrun]
    simp [handleExitNonZero, hnone]
  · intro l1 l l2 v hsplit hl hl1
    have h1 : (l1 : List String).findSome? errorShapedLine = none :=
      List.findSome?_eq_none_iff.mpr hl1
    have hfind : (jsSplitLines (jsTrim (b.stdout ++ b.stderr))).findSome? errorShapedLine
        = some v := by
      rw [hsplit, List.findSome?_append, h1]
      simp [List.findSome?_cons, hl]
    rw [hrun]
    simp only [handleExitNonZero, hfind]
    cases he : jsonGet v "error" with
    | none => simp [he]
    | some e =>
      by_cases ht : jsTruthy e <;> simp [he, ht]

/-- C7 counterexample: two error-shaped stderr lines; the code (a forward
`lines.find`) takes the FIRST (`A`), while the scan the claim describes
(the same last-line-backward scan as the exit-0 branch) yields the LAST
(`B`). -/
theorem C7_counterexample :
    (runWorker 25 ⟨"", "\x7b\"error\":\"A\"\x7d\n\x7b\"error\":\"B\"\x7d",
        ProcOutcome.exits (some 1) none 0⟩).result.error = some (Json.str "A")
    ∧ (specLastBackwardErrorScan "" "\x7b\"error\":\"A\"\x7d\n\x7b\"error\":\"B\"\x7d").map
        (fun v => jsonGet v "error") = some (some (Json.str "B"))
    ∧ Json.str "A" ≠ Json.str "B" := by
  refine ⟨rfl, rfl, ?_⟩
  intro h
  injection h with h2
  exact absurd h2 (by decide)

/-- C7 witness: the specified scenario — exit code 1 with stderr
containing a `success:false` object with error `policy violation` —
resolves exactly that error text. -/
theorem C7_witness :
    (runWorker 25 ⟨"", "\x7b\"success\":false,\"error\":\"policy violation\"\x7d",
        ProcOutcome.exits (some 1) none 1000⟩).result
      = { success := false, error := some (Json.str "policy violation") } :=
  (C7_theorem 25 ⟨"", "\x7b\"success\":false,\"error\":\"policy violation\"\x7d",
      ProcOutcome.exits (some 1) none 1000⟩ (some 1) none 1000 (by decide) rfl (by decide)).2
    [] "\x7b\"success\":false,\"error\":\"policy violation\"\x7d" []
    (Json.obj [("success", Json.bool false), ("error", Json.str "policy violation")])
    rfl rfl (fun x hx => absurd hx (List.not_mem_nil x))

theorem lastRunLT_none_right (k : Option String) : lastRunLT k none = false := by
  cases k <;> rfl

theorem olderProfile_cases (a b : ProfileRecord) :
    olderProfile a b = a ∨ olderProfile a b = b := by
  unfold olderProfile
  split
  · exact Or.inr rfl
  · exact Or.inl rfl

theorem foldl_olderProfile_mem (xs : List ProfileRecord) :
    ∀ a, xs.foldl olderProfile a ∈ a :: xs := by
  induction xs with
  | nil => intro a; simp
  | cons x rest ih =>
    intro a
    have h := ih (olderProfile a x)
    simp only [List.foldl_cons]
    rcases List.mem_cons.mp h with h1 | h1
    · rcases olderProfile_cases a x with h2 | h2
      · rw [h1, h2]; exact List.mem_cons_self _ _
      · rw [h1, h2]
        exact List.mem_cons_of_mem _ (List.mem_cons_self _ _)
    · exact List.mem_cons_of_mem _ (List.mem_cons_of_mem _ h1)

theorem foldl_olderProfile_none (xs : List ProfileRecord) :
    ∀ a, a.lastRunAt = none → (xs.foldl olderProfile a).lastRunAt = none := by
  induction xs with
  | nil => intro a h; simpa using h
  | cons x rest ih =>
    intro a h
    have hstep : olderProfile a x = a := by
      unfold olderProfile
      rw [h, lastRunLT_none_right]
      simp
    simp only [List.foldl_cons, hstep]
    exact ih a h

theorem foldl_olderProfile_exists_none (xs : List ProfileRecord) :
    ∀ a, (∃ x ∈ xs, x.lastRunAt = none) → (xs.foldl olderProfile a).lastRunAt = none := by
  induction xs with
  | nil => intro a h; simp at h
  | cons x rest ih =>
    intro a h
    rcases h with ⟨y, hy, hynone⟩
    rcases List.mem_cons.mp hy with rfl | hyrest
    · by_cases ha : a.lastRunAt = none
      · simp only [List.foldl_cons]
        apply foldl_olderProfile_none
        rcases olderProfile_cases a y with h2 | h2 <;> rw [h2] <;> assumption
      · have hlt : lastRunLT y.lastRunAt a.lastRunAt = true := by
          rw [hynone]
          cases hak : a.lastRunAt with
          | none => exact absurd hak ha
          | some s => rfl
        have hstep : olderProfile a y = y := by
          unfold olderProfile
          rw [hlt]
          simp
        simp only [List.foldl_cons, hstep]
        exact foldl_olderProfile_none rest y hynone
    · simp only [List.foldl_cons]
      exact ih _ ⟨y, hyrest, hynone⟩

theorem findOneByLastRun_mem (l : List ProfileRecord) (p : ProfileRecord)
    (h : findOneByLastRun l = some p) : p ∈ l := by
  cases l with
  | nil => simp [findOneByLastRun] at h
  | cons x xs =>
    simp only [findOneByLastRun, Option.some.injEq] at h
    rw [← h]
    exact foldl_olderProfile_mem xs x

theorem findOneByLastRun_none_key (l : List ProfileRecord)
    (hex : ∃ x ∈ l, x.lastRunAt = none) (p : ProfileRecord)
    (h : findOneByLastRun l = some p) : p.lastRunAt = none := by
  cases l with
  | nil => rcases hex with ⟨x, hx, _⟩; simp at hx
  | cons x xs =>
    simp only [findOneByLastRun, Option.some.injEq] at h
    rw [← h]
    rcases hex with ⟨y, hy, hynone⟩
    rcases List.mem_cons.mp hy with rfl | hyrest
    · exact foldl_olderProfile_none xs y hynone
    · exact foldl_olderProfile_exists_none xs x ⟨y, hyrest, hynone⟩

/-- C1 (amended direction): when `selectAvailableProfile` returns a
profile p, the store afterwards carries `lastRunAt = now` on p (the stamp
does happen before returning), the stamp is issued as a separate
`updateOne` after the `findOne` read, and while another eligible
never-run profile remains in the store, a subsequent call does not
return p again (its stamped key now sorts after the null key). -/
theorem C1_theorem (machineId now now2 : String) (excl : List String)
    (store : List ProfileRecord) (p : ProfileRecord)
    (hsel : (selectAvailableProfile machineId excl now store).result = some p) :
    (∀ q ∈ (selectAvailableProfile machineId excl now store).store,
        q.name = p.name → q.lastRunAt = some now)
    ∧ (selectAvailableProfile machineId excl now store).ops
        = [ProfileStoreOp.findAllProfiles, ProfileStoreOp.findOneEligible,
           ProfileStoreOp.updateLastRun p.name]
    ∧ (∀ q ∈ store, profileEligible machineId excl q = true → q.lastRunAt = none →
        q.name ≠ p.name →
        ∀ r, (selectAvailableProfile machineId excl now2
                (selectAvailableProfile machineId excl now store).store).result = some r →
          r.name ≠ p.name) := by
  cases hf : findOneByLastRun (store.filter (profileEligible machineId excl)) with
  | none => simp [selectAvailableProfile, hf] at hsel
  | some p0 =>
    have hp0 : p0 = p := by simpa [selectAvailableProfile, hf] using hsel
    subst hp0
    have hstore : (selectAvailableProfile machineId excl now store).store
        = store.map (fun q =>
            if q.name == p0.name then { q with lastRunAt := some now, updatedAt := now }
            else q) := by
      simp [selectAvailableProfile, hf]
    refine ⟨?_, by simp [selectAvailableProfile, hf], ?_⟩
    · intro q hq hname
      rw [hstore] at hq
      rcases List.mem_map.mp hq with ⟨q0, hq0, heq⟩
      cases hb : (q0.name == p0.name) with
      | true =>
        rw [← heq]
        simp [hb]
      | false =>
        rw [← heq] at hname
        simp [hb] at hname
        exact absurd hname (by simpa using hb)
    · intro q hq helig hnone hname r hr
      have hqstamp : (if q.name == p0.name
            then { q with lastRunAt := some now, updatedAt := now } else q) = q := by
        have : (q.name == p0.name) = false := beq_eq_false_iff_ne.mpr hname
        simp [this]
      set S : List ProfileRecord := (selectAvailableProfile machineId excl now store).store
        with hS
      have hq1 : q ∈ S := by
        rw [hstore]
        exact List.mem_map.mpr ⟨q, hq, hqstamp⟩
      have hqfilter : q ∈ S.filter (profileEligible machineId excl) :=
        List.mem_filter.mpr ⟨hq1, helig⟩
      cases hf2 : findOneByLastRun (S.filter (profileEligible machineId excl)) with
      | none => simp [selectAvailableProfile, hf2] at hr
      | some r0 =>
        have hr0 : r0 = r := by simpa [selectAvailableProfile, hf2] using hr
        subst hr0
        have hrkey : r0.lastRunAt = none :=
          findOneByLastRun_none_key _ ⟨q, hqfilter, hnone⟩ r0 hf2
        have hrmem : r0 ∈ S :=
          (List.mem_filter.mp (findOneByLastRun_mem _ r0 hf2)).1
        intro hcontra
        rw [hstore] at hrmem
        rcases List.mem_map.mp hrmem with ⟨s0, _, heqs⟩
        cases hb : (s0.name == p0.name) with
        | true =>
          rw [← heqs] at hrkey
          simp [hb] at hrkey
        | false =>
          rw [← heqs] at hcontra
          simp [hb] at hcontra
          exact absurd hcontra (by simpa using hb)

/-- C1 counterexample: a store whose only eligible profile is p.  The
call returns p and stamps it, but via a separate read (`findOne`) and
write (`updateOne`) rather than one atomic find-one-and-update, and a
second call with no other profile state changed returns the same profile
p again, contradicting the claimed non-re-selection. -/
theorem C1_counterexample :
    (selectAvailableProfile "m1" [] "2024-05-01T00:00:00.000Z" [sampleProfile]).result
        = some sampleProfile
    ∧ (selectAvailableProfile "m1" [] "2024-05-01T00:00:00.000Z" [sampleProfile]).ops
        = [ProfileStoreOp.findAllProfiles, ProfileStoreOp.findOneEligible,
           ProfileStoreOp.updateLastRun "p1"]
    ∧ ((selectAvailableProfile "m1" [] "2024-05-01T00:00:10.000Z"
          (selectAvailableProfile "m1" [] "2024-05-01T00:00:00.000Z"
            [sampleProfile]).store).result).map (fun r => r.name) = some "p1" :=
  ⟨rfl, rfl, rfl⟩

/-- C1 witness: with a second eligible never-run profile in the store,
the first call selects and stamps p1 through the separate read-then-write
trace, and the follow-up call does not select p1 again. -/
theorem C1_witness :
    (selectAvailableProfile "m1" [] "2024-05-01T00:00:00.000Z"
        [sampleProfile, sampleProfile2]).ops
      = [ProfileStoreOp.findAllProfiles, ProfileStoreOp.findOneEligible,
         ProfileStoreOp.updateLastRun sampleProfile.name]
    ∧ sampleProfile2.name ≠ sampleProfile.name :=
  ⟨(C1_theorem ("m1") ("2024-05-01T00:00:00.000Z") ("2024-05-01T00:00:10.000Z") []
      [sampleProfile, sampleProfile2] sampleProfile rfl).2.1,
   (C1_theorem ("m1") ("2024-05-01T00:00:00.000Z") ("2024-05-01T00:00:10.000Z") []
      [sampleProfile, sampleProfile2] sampleProfile rfl).2.2 sampleProfile2
     (by simp) rfl rfl (by decide) sampleProfile2 rfl⟩

theorem getTask_updateFirstTask (store : List TaskRecord) (tid : String)
    (f : TaskRecord → TaskRecord) (hf : ∀ r, (f r).taskId = r.taskId) :
    getTask (updateFirstTask store tid f) tid = (getTask store tid).map f := by
  induction store with
  | nil => rfl
  | cons r rest ih =>
    cases h : (r.taskId == tid) with
    | true =>
      have hfr : ((f r).taskId == tid) = true := by rw [hf r]; exact h
      simp only [updateFirstTask, getTask, h, if_true]
      rw [@List.find?_cons_of_pos TaskRecord (fun s => s.taskId == tid) (f r) rest hfr,
        @List.find?_cons_of_pos TaskRecord (fun s => s.taskId == tid) r rest h]
      rfl
    | false =>
      have hneg : ¬ (r.taskId == tid) = true := by simp [h]
      simp only [updateFirstTask, getTask, h]
      rw [if_neg (by simp [h]),
        @List.find?_cons_of_neg TaskRecord (fun s => s.taskId == tid) r
          (updateFirstTask rest tid f) hneg,
        @List.find?_cons_of_neg TaskRecord (fun s => s.taskId == tid) r rest hneg]
      exact ih

theorem buildUpdateData_profileName (st : TaskStatus) (u : TaskPatch) (now : String) :
    (buildUpdateData st u now).profileName = u.profileName := by
  cases st <;> cases hs : optStrFalsy u.startedAt <;> cases hc : optStrFalsy u.completedAt <;>
    simp [buildUpdateData, hs, hc]

theorem buildUpdateData_publicUrl (st : TaskStatus) (u : TaskPatch) (now : String) :
    (buildUpdateData st u now).publicUrl = u.publicUrl := by
  cases st <;> cases hs : optStrFalsy u.startedAt <;> cases hc : optStrFalsy u.completedAt <;>
    simp [buildUpdateData, hs, hc]

theorem buildUpdateData_error (st : TaskStatus) (u : TaskPatch) (now : String) :
    (buildUpdateData st u now).error = u.error := by
  cases st <;> cases hs : optStrFalsy u.startedAt <;> cases hc : optStrFalsy u.completedAt <;>
    simp [buildUpdateData, hs, hc]

theorem buildUpdateData_status (st : TaskStatus) (u : TaskPatch) (now : String) :
    (buildUpdateData st u now).status = some (u.status.getD st) := by
  cases st <;> cases hs : optStrFalsy u.startedAt <;> cases hc : optStrFalsy u.completedAt <;>
    simp [buildUpdateData, hs, hc]

theorem buildUpdateData_updatedAt (st : TaskStatus) (u : TaskPatch) (now : String) :
    (buildUpdateData st u now).updatedAt = some (u.updatedAt.getD now) := by
  cases st <;> cases hs : optStrFalsy u.startedAt <;> cases hc : optStrFalsy u.completedAt <;>
    simp [buildUpdateData, hs, hc]

theorem buildUpdateData_startedAt (st : TaskStatus) (u : TaskPatch) (now : String) :
    (buildUpdateData st u now).startedAt
      = (if st == TaskStatus.processing && optStrFalsy u.startedAt then some now
         else u.startedAt) := by
  cases st <;> cases hs : optStrFalsy u.startedAt <;> cases hc : optStrFalsy u.completedAt <;>
    simp [buildUpdateData, hs, hc]

theorem buildUpdateData_completedAt (st : TaskStatus) (u : TaskPatch) (now : String) :
    (buildUpdateData st u now).completedAt
      = (if st == TaskStatus.failed || st == TaskStatus.timeout then some now
         else if st == TaskStatus.completed && optStrFalsy u.completedAt then some now
         else u.completedAt) := by
  cases st <;> cases hs : optStrFalsy u.startedAt <;> cases hc : optStrFalsy u.completedAt <;>
    simp [buildUpdateData, hs, hc]

/-- C8 (amended direction): `updateTaskStatus` merges the supplied fields
into the stored record; it auto-stamps `startedAt` on entering
`processing` and `completedAt` on entering `completed` only when the
patch does not already carry a (truthy) value, but on entering `failed`
or `timeout` it stamps `completedAt = now` unconditionally, overwriting
any caller-supplied value. -/
theorem C8_theorem (store : List TaskRecord) (tid : String) (status : TaskStatus)
    (updates : TaskPatch) (now : String) (r : TaskRecord)
    (hr : getTask store tid = some r) :
    ∃ n, getTask (updateTaskStatus store tid status updates now) tid = some n
      ∧ n.profileName = patchField updates.profileName r.profileName
      ∧ n.publicUrl = patchField updates.publicUrl r.publicUrl
      ∧ n.error = patchField updates.error r.error
      ∧ n.status = updates.status.getD status
      ∧ n.updatedAt = updates.updatedAt.getD now
      ∧ n.startedAt = (if status == TaskStatus.processing && optStrFalsy updates.startedAt
          then some now else patchField updates.startedAt r.startedAt)
      ∧ n.completedAt = (if status == TaskStatus.failed || status == TaskStatus.timeout
          then some now
          else if status == TaskStatus.completed && optStrFalsy updates.completedAt
          then some now
          else patchField updates.completedAt r.completedAt) := by
  refine ⟨applyTaskPatch r (buildUpdateData status updates now), ?_, ?_, ?_, ?_, ?_, ?_, ?_, ?_⟩
  · rw [updateTaskStatus,
      getTask_updateFirstTask store tid
        (fun s => applyTaskPatch s (buildUpdateData status updates now)) (fun s => rfl),
      hr]
    rfl
  · simp [applyTaskPatch, buildUpdateData_profileName]
  · simp [applyTaskPatch, buildUpdateData_publicUrl]
  · simp [applyTaskPatch, buildUpdateData_error]
  · simp [applyTaskPatch, buildUpdateData_status]
  · simp [applyTaskPatch, buildUpdateData_updatedAt]
  · show patchField (buildUpdateData status updates now).startedAt r.startedAt = _
    rw [buildUpdateData_startedAt]
    cases hcond : (status == TaskStatus.processing && optStrFalsy updates.startedAt) <;>
      simp [hcond, patchField]
  · show patchField (buildUpdateData status updates now).completedAt r.completedAt = _
    rw [buildUpdateData_completedAt]
    cases h3 : (status == TaskStatus.failed || status == TaskStatus.timeout) <;>
      cases h2 : (status == TaskStatus.completed && optStrFalsy updates.completedAt) <;>
        simp [h3, h2, patchField]

/-- C8 counterexample: entering `failed` with a caller-supplied
`completedAt` does NOT preserve it — the store overwrites it with the
auto-stamp, contradicting the claimed in-each-case guard. -/
theorem C8_counterexample :
    ((getTask (updateTaskStatus
          [mkClaimedTaskRecord sampleTask "sora-2" "2024-05-01T00:00:00.000Z"]
          "t1" TaskStatus.failed { completedAt := some "2024-05-01T01:00:00.000Z" }
          "2024-05-02T09:00:00.000Z") "t1").map (fun n => n.completedAt))
      = some (some "2024-05-02T09:00:00.000Z")
    ∧ ("2024-05-02T09:00:00.000Z" : String) ≠ "2024-05-01T01:00:00.000Z" :=
  ⟨rfl, by decide⟩

/-- C8 witness: entering `processing` with a supplied `startedAt`
preserves it and merges the supplied profile name. -/
theorem C8_witness :
    ((getTask (updateTaskStatus
          [mkClaimedTaskRecord sampleTask "sora-2" "2024-05-01T00:00:00.000Z"]
          "t1" TaskStatus.processing
          { profileName := some "p1", startedAt := some "2024-05-01T00:00:05.000Z" }
          "2024-05-02T09:00:00.000Z") "t1").map (fun n => (n.profileName, n.startedAt)))
      = some (some "p1", some "2024-05-01T00:00:05.000Z") := by
  obtain ⟨n, hget, hprof, _, _, _, _, hstart, _⟩ :=
    C8_theorem [mkClaimedTaskRecord sampleTask "sora-2" "2024-05-01T00:00:00.000Z"]
      "t1" TaskStatus.processing
      { profileName := some "p1", startedAt := some "2024-05-01T00:00:05.000Z" }
      "2024-05-02T09:00:00.000Z"
      (mkClaimedTaskRecord sampleTask "sora-2" "2024-05-01T00:00:00.000Z") rfl
  rw [hget]
  have h1 : n.profileName = some "p1" := by rw [hprof]; rfl
  have h2 : n.startedAt = some "2024-05-01T00:00:05.000Z" := by rw [hstart]; rfl
  simp [h1, h2]

/-- C9: `saveTask` is insert-if-absent: a repeated call with the same
task id leaves the collection unchanged (first write wins), and the first
call on a collection without the id stores exactly one record, the
claimed record built from the first arguments. -/
theorem C9_theorem (store : List TaskRecord) (t t2 : TaskData) (pc pc2 now now2 : String)
    (hid : t2.id = t.id) :
    saveTask (saveTask store t pc now) t2 pc2 now2 = saveTask store t pc now
    ∧ (countTaskId store t.id = 0 →
        countTaskId (saveTask store t pc now) t.id = 1
        ∧ getTask (saveTask store t pc now) t.id = some (mkClaimedTaskRecord t pc now)) := by
  constructor
  · set S := saveTask store t pc now with hSdef
    have hmem : (S.any (fun r => r.taskId == t2.id)) = true := by
      rw [hSdef, hid]
      cases h : store.any (fun r => r.taskId == t.id) with
      | true => simp [saveTask, h]
      | false => simp [saveTask, h, List.any_append, mkClaimedTaskRecord]
    simp only [saveTask, hmem, if_true]
  · intro hcount
    have hall : ∀ x ∈ store, ¬ (x.taskId == t.id) = true :=
      List.filter_eq_nil_iff.mp (List.length_eq_zero.mp hcount)
    have hany : store.any (fun r => r.taskId == t.id) = false :=
      List.any_eq_false.mpr hall
    have hfil : store.filter (fun r => r.taskId == t.id) = [] :=
      List.length_eq_zero.mp hcount
    have hfind : store.find? (fun r => r.taskId == t.id) = none :=
      List.find?_eq_none.mpr hall
    constructor
    · simp [saveTask, hany, countTaskId, List.filter_append, hfil, mkClaimedTaskRecord]
    · simp [saveTask, hany, getTask, List.find?_append, hfind, mkClaimedTaskRecord]

/-- C9 witness: saving the same task twice stores it once, with the
record of the first call. -/
theorem C9_witness :
    saveTask (saveTask [] sampleTask "sora-2" "2024-05-01T00:00:00.000Z")
        sampleTask "other-code" "2024-05-01T00:00:30.000Z"
      = saveTask [] sampleTask "sora-2" "2024-05-01T00:00:00.000Z"
    ∧ countTaskId (saveTask [] sampleTask "sora-2" "2024-05-01T00:00:00.000Z") "t1" = 1 :=
  ⟨(C9_theorem [] sampleTask sampleTask "sora-2" "other-code"
      "2024-05-01T00:00:00.000Z" "2024-05-01T00:00:30.000Z" rfl).1,
   ((C9_theorem [] sampleTask sampleTask "sora-2" "other-code"
      "2024-05-01T00:00:00.000Z" "2024-05-01T00:00:30.000Z" rfl).2 rfl).1⟩

/-- C10: worker completion is reconciled at most once per task id: an
absent id leaves the map untouched and performs no external call, and a
present id has its map entry deleted regardless of which (if any)
reconciliation call throws. -/
theorem C10_theorem (m : List (String × ActiveWorkerEntry)) (tid : String)
    (res : WorkerResult) (throwsAt : Option Nat) :
    (m.lookup tid = none → handleWorkerComplete m tid res throwsAt = (m, []))
    ∧ (∀ w, m.lookup tid = some w →
        (handleWorkerComplete m tid res throwsAt).1 = eraseKeyFirst m tid) := by
  constructor
  · intro hnone
    simp [handleWorkerComplete, hnone]
  · intro w hw
    simp [handleWorkerComplete, hw]

/-- C10 witness: a duplicate completion for an unknown id is a no-op, and
a known id is removed from the map even when the very first
reconciliation call throws. -/
theorem C10_witness :
    (handleWorkerComplete [("t1", ⟨"t1", "p1"⟩)] "t2" { success := false } (some 0)
        = ([("t1", ⟨"t1", "p1"⟩)], []))
    ∧ (handleWorkerComplete [("t1", ⟨"t1", "p1"⟩)] "t1" { success := false } (some 0)).1 = [] :=
  ⟨(C10_theorem [("t1", ⟨"t1", "p1"⟩)] "t2" { success := false } (some 0)).1 rfl,
   (C10_theorem [("t1", ⟨"t1", "p1"⟩)] "t1" { success := false } (some 0)).2 ⟨"t1", "p1"⟩ rfl⟩
